import Mathlib

/-!
# A shallow embedding of `snap.go` from KasonBraley/snap

The Go package implements inline snapshot testing: a `Snapshot` session holds
an expected string literal captured at a caller source location, `Diff`
compares an actual value against it with `equalExcludingIgnored` (which treats
`<snap:ignore>` spans as one-line wildcards), and on mismatch with updating
enabled it rewrites the string literal at the captured line of the source file.

Strings are modelled as `List Char` (Go byte strings; all inputs of interest
are ASCII).  `strings.Cut` becomes `cut`, the `equalExcludingIgnored` loop
becomes a fuel-indexed recursion (the fuel bound `snapshot.length + 1` is
strictly larger than the number of loop iterations, since every iteration
removes at least one full `<snap:ignore>` occurrence from the snapshot rest;
when fuel reaches 0 the snapshot rest is empty and the fallback value agrees
with the loop's exit value), and panics become `none` / `Except.error`.
-/

/-- Go `const ignoreFmt = "<snap:ignore>"`. -/
def ignoreFmt : List Char := "<snap:ignore>".toList

/-- Go `strings.Cut(s, pat)`: split `s` around the first occurrence of `pat`,
returning `none` when `pat` does not occur in `s`. -/
def cut : List Char → List Char → Option (List Char × List Char)
  | [], pat => if pat.isPrefixOf ([] : List Char) then some ([], []) else none
  | x :: rest, pat =>
    if pat.isPrefixOf (x :: rest) then some ([], (x :: rest).drop pat.length)
    else
      match cut rest pat with
      | none => none
      | some (p, q) => some (x :: p, q)

/-- Go `strings.Contains(s, pat)`, expressed through `cut` exactly as the Go
standard library relates `Cut` and `Index`. -/
def containsSub (s pat : List Char) : Bool := (cut s pat).isSome

theorem cut_eq_some (s pat p q : List Char) (h : cut s pat = some (p, q)) :
    s = p ++ pat ++ q := by
  induction s generalizing p q with
  | nil =>
    unfold cut at h
    by_cases hp : pat.isPrefixOf ([] : List Char)
    · simp only [hp, if_true, Option.some.injEq, Prod.mk.injEq] at h
      have hpat : pat = [] := List.prefix_nil.mp (List.isPrefixOf_iff_prefix.mp hp)
      rcases h with ⟨h1, h2⟩
      simp [← h1, ← h2, hpat]
    · simp [hp] at h
  | cons x rest ih =>
    unfold cut at h
    by_cases hp : pat.isPrefixOf (x :: rest)
    · simp [hp] at h
      rcases h with ⟨h1, h2⟩
      have hpre : pat <+: (x :: rest) := List.isPrefixOf_iff_prefix.mp hp
      rcases hpre with ⟨t, ht⟩
      subst h1
      simp only [List.nil_append]
      have hq : q = t := by rw [← h2, ← ht, List.drop_left]
      rw [← ht, hq]
    · simp only [hp, if_false] at h
      rcases hq : cut rest pat with _ | ⟨p', q'⟩
      · rw [hq] at h; simp at h
      · rw [hq] at h
        simp at h
        rcases h with ⟨h1, h2⟩
        have := ih p' q' hq
        subst h2
        rw [← h1]
        simp [this]

theorem cut_isSome_iff_occurs (s pat : List Char) :
    (cut s pat).isSome = true ↔ pat <:+: s := by
  induction s with
  | nil =>
    unfold cut
    by_cases hp : pat.isPrefixOf ([] : List Char)
    · have hpre : pat <+: ([] : List Char) := List.isPrefixOf_iff_prefix.mp hp
      simp [hp, hpre.isInfix]
    · have hne : pat ≠ [] := by
        intro hc
        exact hp (by simp [hc, List.isPrefixOf_iff_prefix])
      simp [hp]
      intro hinf
      exact hne hinf
  | cons x rest ih =>
    unfold cut
    by_cases hp : pat.isPrefixOf (x :: rest)
    · have hpre : pat <+: (x :: rest) := List.isPrefixOf_iff_prefix.mp hp
      simp [hp, hpre.isInfix]
    · have hnp : ¬ pat <+: (x :: rest) := fun hc => hp (List.isPrefixOf_iff_prefix.mpr hc)
      simp only [hp, if_false]
      rw [List.infix_cons_iff]
      rcases hq : cut rest pat with _ | ⟨p', q'⟩
      · rw [hq] at ih
        simp at ih
        simp [hnp, ih]
      · rw [hq] at ih
        simp at ih
        simp [hnp, ih]

theorem cut_of_prefix_arg (s pat : List Char) (h : pat <+: s) :
    cut s pat = some ([], s.drop pat.length) := by
  cases s with
  | nil =>
    have hpat : pat = [] := List.prefix_nil.mp h
    subst hpat
    simp [cut]
  | cons x rest =>
    simp only [cut, List.isPrefixOf_iff_prefix.mpr h, if_true]

theorem cut_cons_of_not_prefix_arg (x : Char) (rest pat : List Char)
    (h : ¬ pat <+: (x :: rest)) :
    cut (x :: rest) pat =
      match cut rest pat with
      | none => none
      | some (p, q) => some (x :: p, q) := by
  have hb : pat.isPrefixOf (x :: rest) = false := by
    cases hv : pat.isPrefixOf (x :: rest) with
    | false => rfl
    | true => exact absurd (List.isPrefixOf_iff_prefix.mp hv) h
  simp only [cut, hb]
  rfl

theorem cut_none_iff_no_occurrence (s pat : List Char) :
    cut s pat = none ↔ ¬ pat <:+: s := by
  constructor
  · intro h hinf
    have := (cut_isSome_iff_occurs s pat).mpr hinf
    rw [h] at this
    simp at this
  · intro h
    cases hv : cut s pat with
    | none => rfl
    | some pr =>
      exact absurd ((cut_isSome_iff_occurs s pat).mp (by simp [hv])) h

theorem infix_reverse_of (l₁ l₂ : List Char) (h : l₁ <:+: l₂) :
    l₁.reverse <:+: l₂.reverse := by
  rcases h with ⟨s, t, rfl⟩
  exact ⟨t.reverse, s.reverse, by simp⟩

/-- The head of a pattern that occurs nowhere else in the pattern rules out the
pattern being a prefix of `a ++ pattern ++ c` whenever the nonempty `a` is
pattern-free: the occurrence would force the unique head character to reappear
inside the pattern's tail. -/
theorem not_prefix_sandwich (h : Char) (mt a c : List Char)
    (hmem : h ∉ mt) (ha : a ≠ []) (hinf : ¬ (h :: mt) <:+: a) :
    ¬ (h :: mt) <+: (a ++ (h :: mt) ++ c) := by
  intro hpre
  by_cases hlen : (h :: mt).length ≤ a.length
  · have hp2 : a <+: (a ++ (h :: mt) ++ c) := by
      rw [List.append_assoc]
      exact List.prefix_append a _
    exact hinf (List.prefix_of_prefix_length_le hpre hp2 hlen).isInfix
  · obtain ⟨t, ht⟩ := hpre
    have ht' : (h :: mt) ++ t = a ++ ((h :: mt) ++ c) := by
      simpa [List.append_assoc] using ht
    obtain ⟨k, hk⟩ : ∃ k, a.length = k + 1 := by
      cases a with
      | nil => exact absurd rfl ha
      | cons y ys => exact ⟨ys.length, rfl⟩
    have hlt : a.length < mt.length + 1 := by
      simpa using Nat.lt_of_not_le hlen
    have e1 : ((h :: mt) ++ t)[a.length]? = some h := by
      rw [ht', List.getElem?_append_right (Nat.le_refl _)]
      simp
    have e2 : ((h :: mt) ++ t)[a.length]? = mt[k]? := by
      have hc : (h :: mt) ++ t = h :: (mt ++ t) := rfl
      rw [hc, hk, List.getElem?_cons_succ, List.getElem?_append_left (by omega)]
    rw [e2] at e1
    exact hmem (List.getElem?_mem e1)

/-- Mirror image of `not_prefix_sandwich`, obtained by reversing the lists. -/
theorem not_suffix_sandwich (m a c : List Char) (h : Char) (mt : List Char)
    (hrev : m.reverse = h :: mt) (hmem : h ∉ mt) (hc : c ≠ []) (hinf : ¬ m <:+: c) :
    ¬ m <:+ (a ++ m ++ c) := by
  intro hsuf
  obtain ⟨t, ht⟩ := hsuf
  have hpre : m.reverse <+: (c.reverse ++ m.reverse ++ a.reverse) := by
    refine ⟨t.reverse, ?_⟩
    have hrw := congrArg List.reverse ht
    simp only [List.reverse_append] at hrw
    simpa [List.append_assoc] using hrw
  have hinf' : ¬ (h :: mt) <:+: c.reverse := by
    rw [← hrev]
    intro hx
    have hxx := infix_reverse_of _ _ hx
    simp at hxx
    exact hinf hxx
  have hc' : c.reverse ≠ [] := by simpa using hc
  rw [hrev] at hpre
  exact not_prefix_sandwich h mt c.reverse a.reverse hmem hc' hinf' hpre

/-- Tail of the ignore marker after its head character. -/
def mTail : List Char := "snap:ignore>".toList

/-- Reverse tail of the ignore marker after its last character. -/
def mRevTail : List Char := "erongi:pans<".toList

theorem ignoreFmt_eq_cons : ignoreFmt = '<' :: mTail := by decide

theorem lt_not_mem_mTail : '<' ∉ mTail := by decide

theorem ignoreFmt_reverse_eq : ignoreFmt.reverse = '>' :: mRevTail := by decide

theorem gt_not_mem_mRevTail : '>' ∉ mRevTail := by decide

/-- The marker is never a prefix of `a ++ marker ++ c` when the nonempty `a`
is marker-free: `<` occurs in the marker only at its head. -/
theorem ignoreFmt_not_prefix_of_sandwich (a c : List Char) (ha : a ≠ [])
    (hainf : ¬ ignoreFmt <:+: a) : ¬ ignoreFmt <+: (a ++ ignoreFmt ++ c) := by
  have h := not_prefix_sandwich '<' mTail a c lt_not_mem_mTail ha
    (by rw [← ignoreFmt_eq_cons]; exact hainf)
  rw [← ignoreFmt_eq_cons] at h
  exact h

/-- The marker is never a suffix of `a ++ marker ++ c` when the nonempty `c`
is marker-free: `>` occurs in the marker only at its end. -/
theorem ignoreFmt_not_suffix_of_sandwich (a c : List Char) (hc : c ≠ [])
    (hcinf : ¬ ignoreFmt <:+: c) : ¬ ignoreFmt <:+ (a ++ ignoreFmt ++ c) :=
  not_suffix_sandwich ignoreFmt a c '>' mRevTail ignoreFmt_reverse_eq
    gt_not_mem_mRevTail hc hcinf

theorem infix_of_infix_cons (x : Char) (l₁ l₂ : List Char) (h : l₁ <:+: l₂) :
    l₁ <:+: (x :: l₂) := by
  rcases h with ⟨s, t, rfl⟩
  exact ⟨x :: s, t, by simp⟩

/-- In `a ++ marker ++ c` with `a` marker-free, the first marker occurrence is
the explicit one, so `strings.Cut` splits there. -/
theorem cut_marker_sandwich (a c : List Char) (ha : ¬ ignoreFmt <:+: a) :
    cut (a ++ ignoreFmt ++ c) ignoreFmt = some (a, c) := by
  induction a with
  | nil =>
    simp only [List.nil_append]
    rw [cut_of_prefix_arg _ _ (List.prefix_append _ _), List.drop_left]
  | cons x a' ih =>
    have hshape : (x :: a') ++ ignoreFmt ++ c = x :: (a' ++ ignoreFmt ++ c) := by
      simp
    have hnp : ¬ ignoreFmt <+: ((x :: a') ++ ignoreFmt ++ c) :=
      ignoreFmt_not_prefix_of_sandwich (x :: a') c (by simp) ha
    rw [hshape] at hnp
    have ha' : ¬ ignoreFmt <:+: a' := fun hx => ha (infix_of_infix_cons x _ _ hx)
    rw [hshape, cut_cons_of_not_prefix_arg x _ _ hnp, ih ha']

/-- The loop body of Go `equalExcludingIgnored` (lines 289-339 of snap.go),
with the two `panic` calls modelled as `none`.  The recursion is driven by a
fuel counter: every iteration removes a full marker occurrence from
`snapshotRest`, so any fuel of at least `snapshotRest.length` is enough, and
when fuel is 0 `snapshotRest` is empty and the fallback equals the loop's own
exit value for an empty rest. -/
def eeiLoop : Nat → List Char → List Char → Option Bool
  | 0, gotRest, snapshotRest => some (gotRest == snapshotRest)
  | fuel + 1, gotRest, snapshotRest =>
    match cut snapshotRest ignoreFmt with
    | none => some (gotRest == snapshotRest)
    | some (snapPre, snapSuf) =>
      match cut gotRest snapPre with
      | none => some (gotRest == snapshotRest)
      | some (gotPre, gotSuf) =>
        if gotPre ≠ [] then some false
        else
          let nextAnchor :=
            match cut snapSuf ignoreFmt with
            | some (p, _) => p
            | none => snapSuf
          if nextAnchor = [] then none
          else
            let snapshotRest2 :=
              match cut snapSuf nextAnchor with
              | some (_, suf) => suf
              | none => snapSuf
            match cut gotSuf nextAnchor with
            | none => some false
            | some (ignored, gotSuf2) =>
              if ignored = [] ∨ ignored.contains '\n' then some false
              else eeiLoop fuel gotSuf2 snapshotRest2

/-- Go `equalExcludingIgnored(got, snapshot)`; `none` models the panics. -/
def equalExcludingIgnored (got snapshot : List Char) : Option Bool :=
  if ignoreFmt.isPrefixOf snapshot || ignoreFmt.isSuffixOf snapshot then none
  else eeiLoop (snapshot.length + 1) got snapshot

example : equalExcludingIgnored ("123".toList) ("123".toList) = some true := by decide
example : equalExcludingIgnored ("1234".toList) ("1<snap:ignore>4".toList) = some true := by decide
example : equalExcludingIgnored ("12345678".toList) ("12<snap:ignore>56<snap:ignore>8".toList) = some true := by decide
example : equalExcludingIgnored ("123".toList) ("132".toList) = some false := by decide
example : equalExcludingIgnored ("1234".toList) ("1<snap:ignore>5".toList) = some false := by decide
example : equalExcludingIgnored ("12345678".toList) ("12<snap:ignore>43<snap:ignore>78".toList) = some false := by decide
example : equalExcludingIgnored ("12345678".toList) ("12<snap:ignore>34<snap:ignore>87".toList) = some false := by decide
example : equalExcludingIgnored ("123".toList) ("12<snap:ignore>3".toList) = some false := by decide
example : equalExcludingIgnored ("1\n2\n3".toList) ("1<snap:ignore>3".toList) = some false := by decide

/-- A Go source location as captured by `runtime.Caller`. -/
structure SourceLocation where
  file : String
  line : Nat
deriving DecidableEq

/-- The `Snapshot` struct of snap.go; the `*testing.T` handle is modelled as
`Option Unit` so that a nil handle is `none`. -/
structure Snapshot where
  location : SourceLocation
  text : List Char
  updateThis : Bool
  t : Option Unit
  foundCallerLocation : Bool
deriving DecidableEq

/-- Go `Snap(t, text)` (snap.go lines 143-155).  The `runtime.Caller(1)`
results are inputs of the model; on `ok = false` the Go code reports an error
but still constructs the session with `foundCallerLocation` false. -/
def Snap (t : Unit) (text : List Char) (callerFile : String) (callerLine : Nat)
    (callerOk : Bool) : Snapshot :=
  { location := ⟨callerFile, callerLine⟩
    text := text
    updateThis := false
    t := some t
    foundCallerLocation := callerOk }

/-- Go `(*Snapshot).Update` (lines 158-164): the composite literal sets only
`location`, `text` and `updateThis`, so `t` and `foundCallerLocation` keep
their Go zero values (nil and false). -/
def Update (s : Snapshot) : Snapshot :=
  { location := ⟨s.location.file, s.location.line⟩
    text := s.text
    updateThis := true
    t := none
    foundCallerLocation := false }

/-- Go `(*Snapshot).shouldUpdate` (lines 265-276). -/
def shouldUpdate (s : Snapshot) (hasSnapUpdateEnv : Bool) : Bool :=
  if !s.foundCallerLocation then false
  else if s.updateThis then true
  else hasSnapUpdateEnv

/-- A call argument in the parsed file: a `*ast.BasicLit` (whose `Value`
includes the delimiting quotes and whose kind may or may not be
`token.STRING`), or any other expression. -/
inductive GoArg where
  | basicLit (isStringKind : Bool) (value : List Char)
  | otherExpr
deriving DecidableEq

/-- The callee of a call expression: a selector whose receiver is a plain
identifier (`none` models a receiver that is not an `*ast.Ident`), or any
other function expression. -/
inductive GoFun where
  | selector (xIdent : Option String) (selName : String)
  | otherFun
deriving DecidableEq

/-- One call expression met by `ast.Inspect`, with its source line. -/
structure GoCall where
  callee : GoFun
  line : Nat
  args : List GoArg
deriving DecidableEq

/-- A parsed Go file, reduced to its call expressions in traversal order. -/
structure GoFile where
  calls : List GoCall
deriving DecidableEq

/-- The `ast.Inspect` callback body of `Diff` (lines 193-222) for one call
expression.  `Except.error` models the `callExpr.Args[1]` index-out-of-range
panic, reachable because the guard only checks `len(callExpr.Args) > 0`. -/
def processCall (targetLine : Nat) (got : List Char) (c : GoCall) :
    Except Unit GoCall :=
  match c.callee with
  | GoFun.selector (some identName) selName =>
    if identName = "snap" ∧ selName = "Snap" then
      if targetLine ≠ c.line then Except.ok c
      else if 0 < c.args.length then
        match c.args[1]? with
        | none => Except.error ()
        | some (GoArg.basicLit isStr v) =>
          if isStr then
            let newValue :=
              if 2 ≤ v.length ∧ v.head? = some '\x60' ∧ v.getLast? = some '\x60' then
                '\x60' :: (got ++ ['\x60'])
              else
                '"' :: (got ++ ['"'])
            Except.ok { c with args := c.args.set 1 (GoArg.basicLit isStr newValue) }
          else Except.ok c
        | some GoArg.otherExpr => Except.ok c
      else Except.ok c
    else Except.ok c
  | _ => Except.ok c

/-- The full `ast.Inspect` traversal over the file's call expressions; a panic
in any callback aborts the traversal. -/
def inspectFile (targetLine : Nat) (got : List Char) :
    List GoCall → Except Unit (List GoCall)
  | [] => Except.ok []
  | c :: rest =>
    match processCall targetLine got c with
    | Except.error e => Except.error e
    | Except.ok c' =>
      match inspectFile targetLine got rest with
      | Except.error e => Except.error e
      | Except.ok rest' => Except.ok (c' :: rest')

/-- The environment a `Diff` call runs in: the `SNAP_UPDATE` presence check,
the parse result for the captured file (`none` = `parser.ParseFile` error),
and the success of the `format.Node`, `os.OpenFile` and `io.Copy` steps. -/
structure Env where
  hasSnapUpdate : Bool
  parseResult : Option GoFile
  formatOk : Bool
  openOk : Bool
  writeOk : Bool
deriving DecidableEq

/-- The observable outcome of one `Diff` (or `DiffJSON`) call. -/
inductive DiffOutcome where
  | nilContextPanic
  | matcherPanic
  | pass
  | mismatchNoUpdate
  | parseError
  | indexPanic
  | formatError
  | openError
  | writeError
  | updated (f : GoFile)
  | encodeError
deriving DecidableEq

/-- Go `(*Snapshot).Diff` (lines 169-246).  The first step `s.t.Helper()`
dereferences the test context; all later steps follow the source order:
matcher, mismatch report, `shouldUpdate`, parse, inspect/rewrite, format to
an in-memory buffer, open with `O_WRONLY|O_TRUNC`, copy the buffer out. -/
def Diff (s : Snapshot) (got : List Char) (env : Env) : DiffOutcome :=
  match s.t with
  | none => DiffOutcome.nilContextPanic
  | some _ =>
    match equalExcludingIgnored got s.text with
    | none => DiffOutcome.matcherPanic
    | some true => DiffOutcome.pass
    | some false =>
      if !(shouldUpdate s env.hasSnapUpdate) then DiffOutcome.mismatchNoUpdate
      else
        match env.parseResult with
        | none => DiffOutcome.parseError
        | some f =>
          match inspectFile s.location.line got f.calls with
          | Except.error _ => DiffOutcome.indexPanic
          | Except.ok newCalls =>
            if !env.formatOk then DiffOutcome.formatError
            else if !env.openOk then DiffOutcome.openError
            else if !env.writeOk then DiffOutcome.writeError
            else DiffOutcome.updated ⟨newCalls⟩

/-- Outcomes in which the source file's contents are changed.  The file is
opened with `O_TRUNC` before `io.Copy`, so a failed copy still truncates the
file; a failed open, and everything before it, leaves the file untouched. -/
def fileModified : DiffOutcome → Bool
  | DiffOutcome.writeError => true
  | DiffOutcome.updated _ => true
  | _ => false

/-- Go `strings.TrimSuffix(s, "\n")`. -/
def trimSuffixNewline (l : List Char) : List Char :=
  if l.getLast? = some '\n' then l.dropLast else l

/-- Go `(*Snapshot).DiffJSON` (lines 251-263): `s.t.Helper()` first, then the
JSON encoding (an input of the model, `none` = encoder error), then `Diff` on
the encoded text with one trailing newline trimmed. -/
def DiffJSON (s : Snapshot) (encoded : Option (List Char)) (env : Env) :
    DiffOutcome :=
  match s.t with
  | none => DiffOutcome.nilContextPanic
  | some _ =>
    match encoded with
    | none => DiffOutcome.encodeError
    | some buf => Diff s (trimSuffixNewline buf) env

theorem not_infix_of_containsSub_false (s pat : List Char)
    (h : containsSub s pat = false) : ¬ pat <:+: s := by
  intro hinf
  have := (cut_isSome_iff_occurs s pat).mpr hinf
  rw [containsSub] at h
  rw [h] at this
  cases this

theorem eeiLoop_nil_snapshot (fuel : Nat) (gotRest : List Char) :
    eeiLoop fuel gotRest [] = some (gotRest == []) := by
  cases fuel with
  | zero => rfl
  | succ f =>
    have h : cut ([] : List Char) ignoreFmt = none := by decide
    simp [eeiLoop, h]

theorem eeiLoop_no_marker (fuel : Nat) (gotRest snapshotRest : List Char)
    (h : cut snapshotRest ignoreFmt = none) :
    eeiLoop fuel gotRest snapshotRest = some (gotRest == snapshotRest) := by
  cases fuel with
  | zero => rfl
  | succ f => simp [eeiLoop, h]

/-- C6: a session whose caller-location capture failed never performs a
source-file write from `Diff`, whatever the per-session request and the
`SNAP_UPDATE` environment signal are: `shouldUpdate` pins it to false before
any rewrite step is reached. -/
theorem c6_no_write_when_caller_unknown (s : Snapshot) (got : List Char)
    (env : Env) (h : s.foundCallerLocation = false) :
    fileModified (Diff s got env) = false := by
  have hsu : shouldUpdate s env.hasSnapUpdate = false := by
    simp [shouldUpdate, h]
  cases hs : s.t with
  | none => simp [Diff, hs, fileModified]
  | some u =>
    cases he : equalExcludingIgnored got s.text with
    | none => simp [Diff, hs, he, fileModified]
    | some b =>
      cases b with
      | true => simp [Diff, hs, he, fileModified]
      | false => simp [Diff, hs, he, hsu, fileModified]

theorem c6_witness :
    fileModified (Diff
      { location := ⟨"f.go", 5⟩, text := "8".toList, updateThis := true,
        t := some (), foundCallerLocation := false }
      ("4".toList) ⟨true, none, true, true, true⟩) = false :=
  c6_no_write_when_caller_unknown _ _ _ rfl

/-- C9: `Update` builds the derived snapshot by a composite literal that
omits the test context, so `t` is nil and both `Diff` and `DiffJSON` hit the
nil dereference at their first step (`s.t.Helper()`), for every actual value
including one that matches the expected text. -/
theorem c9_update_nil_context (s : Snapshot) (got : List Char)
    (encoded : Option (List Char)) (env : Env) :
    (Update s).t = none ∧
    Diff (Update s) got env = DiffOutcome.nilContextPanic ∧
    DiffJSON (Update s) encoded env = DiffOutcome.nilContextPanic :=
  ⟨rfl, rfl, rfl⟩

/-- C3 (code bug): a session derived with `Update` from a successfully
located session has a nil test context and a false `foundCallerLocation`, so
`Diff` panics instead of rewriting and `shouldUpdate` is false under both
environment values — the derived session is not update-enabled. -/
theorem c3_update_cannot_update :
    (Update (Snap () ("8".toList) "f.go" 5 true)).t = none ∧
    (Update (Snap () ("8".toList) "f.go" 5 true)).foundCallerLocation = false ∧
    shouldUpdate (Update (Snap () ("8".toList) "f.go" 5 true)) true = false ∧
    shouldUpdate (Update (Snap () ("8".toList) "f.go" 5 true)) false = false ∧
    Diff (Update (Snap () ("8".toList) "f.go" 5 true)) ("4".toList)
      ⟨false, none, true, true, true⟩ = DiffOutcome.nilContextPanic :=
  ⟨rfl, rfl, rfl, rfl, rfl⟩

theorem inspectFile_error_of_one_arg_call (targetLine : Nat) (got : List Char)
    (calls : List GoCall) (c : GoCall) (hmem : c ∈ calls)
    (hsel : c.callee = GoFun.selector (some "snap") "Snap")
    (hline : c.line = targetLine) (hargs : c.args.length = 1) :
    inspectFile targetLine got calls = Except.error () := by
  induction calls with
  | nil => simp at hmem
  | cons d rest ih =>
    have hpc : processCall targetLine got c = Except.error () := by
      obtain ⟨callee, line, args⟩ := c
      simp only at hsel hline hargs
      subst hsel hline
      have h1 : args[1]? = none := List.getElem?_eq_none (by omega)
      simp [processCall, hargs, h1]
    rcases List.mem_cons.mp hmem with rfl | hmem'
    · simp [inspectFile, hpc]
    · cases hd : processCall targetLine got d with
      | error e => simp [inspectFile, hd]
      | ok d' => simp [inspectFile, hd, ih hmem']

/-- C10: the `ast.Inspect` callback guards the `callExpr.Args[1]` access only
with `len(callExpr.Args) > 0`, so any structurally-matching call with exactly
one argument at the captured line makes the update path abort with an
index-out-of-range panic instead of reporting a rewrite failure. -/
theorem c10_one_arg_index_panic (s : Snapshot) (got : List Char) (env : Env)
    (f : GoFile) (c : GoCall) (u : Unit)
    (ht : s.t = some u)
    (hmatch : equalExcludingIgnored got s.text = some false)
    (hupd : shouldUpdate s env.hasSnapUpdate = true)
    (hparse : env.parseResult = some f)
    (hmem : c ∈ f.calls)
    (hsel : c.callee = GoFun.selector (some "snap") "Snap")
    (hline : c.line = s.location.line)
    (hargs : c.args.length = 1) :
    Diff s got env = DiffOutcome.indexPanic := by
  have hins := inspectFile_error_of_one_arg_call s.location.line got f.calls c
    hmem hsel hline hargs
  simp [Diff, ht, hmatch, hupd, hparse, hins]

theorem c10_witness :
    Diff ⟨⟨"f.go", 5⟩, "8".toList, false, some (), true⟩ ("4".toList)
      ⟨true, some ⟨[⟨GoFun.selector (some "snap") "Snap", 5, [GoArg.otherExpr]⟩]⟩,
        true, true, true⟩ = DiffOutcome.indexPanic :=
  c10_one_arg_index_panic _ _ _ _
    ⟨GoFun.selector (some "snap") "Snap", 5, [GoArg.otherExpr]⟩ ()
    rfl (by decide) rfl rfl (by decide) rfl rfl rfl

/-- C8: the modified tree is serialized to an in-memory buffer before the
file is touched; a failing `format.Node` yields only the distinct format
error and never a file-modifying outcome, and every file-modifying outcome
has a successful serialization behind it. -/
theorem c8_buffer_before_file :
    (∀ (s : Snapshot) (got : List Char) (env : Env),
        env.formatOk = false → fileModified (Diff s got env) = false) ∧
    (∀ (s : Snapshot) (got : List Char) (env : Env),
        fileModified (Diff s got env) = true → env.formatOk = true) := by
  have h1 : ∀ (s : Snapshot) (got : List Char) (env : Env),
      env.formatOk = false → fileModified (Diff s got env) = false := by
    intro s got env hfmt
    unfold Diff
    split
    · rfl
    · split
      · rfl
      · rfl
      · split
        · rfl
        · split
          · rfl
          · split
            · rfl
            · simp [hfmt, fileModified]
  refine ⟨h1, ?_⟩
  intro s got env h
  cases hf : env.formatOk with
  | false => rw [h1 s got env hf] at h; cases h
  | true => rfl

theorem c8_witness :
    fileModified (Diff ⟨⟨"f.go", 5⟩, "8".toList, false, some (), true⟩
      ("4".toList) ⟨true, some ⟨[]⟩, false, true, true⟩) = false :=
  c8_buffer_before_file.1 _ _ _ rfl

/-- C2 (code bug): the traversal requires the receiver identifier to be
literally `snap` (line 199), so with update enabled an aliased call
`foo.Snap(t, "8")` at the captured line is written back unchanged, while the
same call under the name `snap` has its literal rewritten. -/
theorem c2_alias_not_rewritten :
    Diff ⟨⟨"f.go", 5⟩, "8".toList, false, some (), true⟩ ("4".toList)
      ⟨true, some ⟨[⟨GoFun.selector (some "foo") "Snap", 5,
        [GoArg.otherExpr, GoArg.basicLit true ("\"8\"".toList)]⟩]⟩,
        true, true, true⟩
      = DiffOutcome.updated ⟨[⟨GoFun.selector (some "foo") "Snap", 5,
        [GoArg.otherExpr, GoArg.basicLit true ("\"8\"".toList)]⟩]⟩ ∧
    Diff ⟨⟨"f.go", 5⟩, "8".toList, false, some (), true⟩ ("4".toList)
      ⟨true, some ⟨[⟨GoFun.selector (some "snap") "Snap", 5,
        [GoArg.otherExpr, GoArg.basicLit true ("\"8\"".toList)]⟩]⟩,
        true, true, true⟩
      = DiffOutcome.updated ⟨[⟨GoFun.selector (some "snap") "Snap", 5,
        [GoArg.otherExpr, GoArg.basicLit true ("\"4\"".toList)]⟩]⟩ :=
  ⟨by decide, by decide⟩

theorem processCall_ok_of_benign (targetLine : Nat) (got : List Char)
    (c : GoCall)
    (h : c.callee ≠ GoFun.selector (some "snap") "Snap" ∨
      c.line ≠ targetLine ∨ c.args = [] ∨
      c.args[1]? = some GoArg.otherExpr ∨
      (∃ v, c.args[1]? = some (GoArg.basicLit false v))) :
    processCall targetLine got c = Except.ok c := by
  obtain ⟨callee, line, args⟩ := c
  simp only at h
  cases callee with
  | otherFun => rfl
  | selector xo sel =>
    cases xo with
    | none => rfl
    | some id =>
      by_cases hid : id = "snap" ∧ sel = "Snap"
      · obtain ⟨rfl, rfl⟩ := hid
        rcases h with h | h | h | h | ⟨v, h⟩
        · exact absurd rfl h
        · have h' : targetLine ≠ line := Ne.symm h
          simp [processCall, h']
        · subst h
          simp [processCall]
        · simp [processCall, h]
        · simp [processCall, h]
      · simp [processCall, hid]

theorem inspectFile_ok_id (targetLine : Nat) (got : List Char)
    (calls : List GoCall)
    (h : ∀ c ∈ calls, processCall targetLine got c = Except.ok c) :
    inspectFile targetLine got calls = Except.ok calls := by
  induction calls with
  | nil => rfl
  | cons d rest ih =>
    simp [inspectFile, h d (List.mem_cons_self d rest),
      ih (fun c hc => h c (List.mem_cons_of_mem d hc))]

/-- C7 amended: when no structurally-matching call exists at the captured
line, or the matching call's second argument is not a string literal (and the
one-argument panic shape is absent), the rewrite phase reports nothing: the
traversal leaves every call unchanged and the unmodified tree is re-serialized
and written back, logged as a successful update. -/
theorem c7_amended_silent_rewrite (s : Snapshot) (got : List Char) (env : Env)
    (f : GoFile) (u : Unit)
    (ht : s.t = some u)
    (hmatch : equalExcludingIgnored got s.text = some false)
    (hupd : shouldUpdate s env.hasSnapUpdate = true)
    (hparse : env.parseResult = some f)
    (hfmt : env.formatOk = true) (hopen : env.openOk = true)
    (hwrite : env.writeOk = true)
    (hbenign : ∀ c ∈ f.calls,
      c.callee ≠ GoFun.selector (some "snap") "Snap" ∨
      c.line ≠ s.location.line ∨ c.args = [] ∨
      c.args[1]? = some GoArg.otherExpr ∨
      (∃ v, c.args[1]? = some (GoArg.basicLit false v))) :
    Diff s got env = DiffOutcome.updated f ∧
    fileModified (Diff s got env) = true := by
  have hins : inspectFile s.location.line got f.calls = Except.ok f.calls :=
    inspectFile_ok_id _ _ _
      (fun c hc => processCall_ok_of_benign _ _ _ (hbenign c hc))
  have hd : Diff s got env = DiffOutcome.updated f := by
    simp [Diff, ht, hmatch, hupd, hparse, hins, hfmt, hopen, hwrite]
  exact ⟨hd, by rw [hd]; rfl⟩

/-- C7 counterexample: update enabled but no call at the captured line (the
only matching call sits at line 99, the session points at line 5): no
distinct failure is reported and the source file is overwritten anyway, with
the unchanged tree, and the update is logged as successful. -/
theorem c7_counterexample :
    Diff ⟨⟨"f.go", 5⟩, "8".toList, false, some (), true⟩ ("4".toList)
      ⟨true, some ⟨[⟨GoFun.selector (some "snap") "Snap", 99,
        [GoArg.otherExpr, GoArg.basicLit true ("\"8\"".toList)]⟩]⟩,
        true, true, true⟩
      = DiffOutcome.updated ⟨[⟨GoFun.selector (some "snap") "Snap", 99,
        [GoArg.otherExpr, GoArg.basicLit true ("\"8\"".toList)]⟩]⟩ ∧
    fileModified (DiffOutcome.updated (⟨[⟨GoFun.selector (some "snap") "Snap", 99,
        [GoArg.otherExpr, GoArg.basicLit true ("\"8\"".toList)]⟩]⟩ : GoFile)) = true :=
  ⟨by decide, rfl⟩

theorem c7_witness :
    Diff ⟨⟨"f.go", 5⟩, "8".toList, false, some (), true⟩ ("4".toList)
      ⟨true, some ⟨[⟨GoFun.selector (some "snap") "Snap", 5,
        [GoArg.otherExpr, GoArg.otherExpr]⟩]⟩, true, true, true⟩
      = DiffOutcome.updated ⟨[⟨GoFun.selector (some "snap") "Snap", 5,
        [GoArg.otherExpr, GoArg.otherExpr]⟩]⟩ ∧
    fileModified (Diff ⟨⟨"f.go", 5⟩, "8".toList, false, some (), true⟩ ("4".toList)
      ⟨true, some ⟨[⟨GoFun.selector (some "snap") "Snap", 5,
        [GoArg.otherExpr, GoArg.otherExpr]⟩]⟩, true, true, true⟩) = true :=
  c7_amended_silent_rewrite _ _ _ _ () rfl (by decide) rfl rfl rfl rfl rfl
    (by
      intro c hc
      rw [List.mem_singleton] at hc
      subst hc
      right; right; right; left
      rfl)

/-- C1 amended: on the update path the rewritten literal is the actual value
verbatim, wrapped in the detected quoting style; ignore markers present in
the old expected text are not merged back (the `TODO: handle overwriting of
<snap:ignore>` path of lines 204-216, documented in the README as a
limitation). -/
theorem c1_amended_verbatim_write (s : Snapshot) (got : List Char) (env : Env)
    (a0 : GoArg) (v : List Char) (u : Unit)
    (ht : s.t = some u)
    (hmatch : equalExcludingIgnored got s.text = some false)
    (hupd : shouldUpdate s env.hasSnapUpdate = true)
    (hparse : env.parseResult = some ⟨[⟨GoFun.selector (some "snap") "Snap",
      s.location.line, [a0, GoArg.basicLit true v]⟩]⟩)
    (hfmt : env.formatOk = true) (hopen : env.openOk = true)
    (hwrite : env.writeOk = true) :
    Diff s got env = DiffOutcome.updated ⟨[⟨GoFun.selector (some "snap") "Snap",
      s.location.line,
      [a0, GoArg.basicLit true
        (if 2 ≤ v.length ∧ v.head? = some '\x60' ∧ v.getLast? = some '\x60'
         then '\x60' :: (got ++ ['\x60'])
         else '"' :: (got ++ ['"']))]⟩]⟩ := by
  have hpc : processCall s.location.line got
      ⟨GoFun.selector (some "snap") "Snap", s.location.line,
        [a0, GoArg.basicLit true v]⟩
      = Except.ok ⟨GoFun.selector (some "snap") "Snap", s.location.line,
        [a0, GoArg.basicLit true
          (if 2 ≤ v.length ∧ v.head? = some '\x60' ∧ v.getLast? = some '\x60'
           then '\x60' :: (got ++ ['\x60'])
           else '"' :: (got ++ ['"']))]⟩ := by
    simp [processCall, List.set]
  have hins : inspectFile s.location.line got
      [⟨GoFun.selector (some "snap") "Snap", s.location.line,
        [a0, GoArg.basicLit true v]⟩]
      = Except.ok [⟨GoFun.selector (some "snap") "Snap", s.location.line,
        [a0, GoArg.basicLit true
          (if 2 ≤ v.length ∧ v.head? = some '\x60' ∧ v.getLast? = some '\x60'
           then '\x60' :: (got ++ ['\x60'])
           else '"' :: (got ++ ['"']))]⟩] := by
    simp [inspectFile, hpc]
  simp [Diff, ht, hmatch, hupd, hparse, hins, hfmt, hopen, hwrite]

/-- C1 counterexample: the old expected text has a line carrying an ignore
marker, the update path runs, and the literal written into the source is the
actual value verbatim — it contains no marker at all, so no old marker line
was reinstated at its structurally-corresponding position. -/
theorem c1_counterexample :
    containsSub ("a: 1\nb: <snap:ignore>,".toList) ignoreFmt = true ∧
    containsSub ("a: 2\nb: 7,".toList) ignoreFmt = false ∧
    Diff ⟨⟨"f.go", 5⟩, "a: 1\nb: <snap:ignore>,".toList, false, some (), true⟩
      ("a: 2\nb: 7,".toList)
      ⟨true, some ⟨[⟨GoFun.selector (some "snap") "Snap", 5,
        [GoArg.otherExpr,
         GoArg.basicLit true ("\"a: 1\nb: <snap:ignore>,\"".toList)]⟩]⟩,
        true, true, true⟩
      = DiffOutcome.updated ⟨[⟨GoFun.selector (some "snap") "Snap", 5,
        [GoArg.otherExpr,
         GoArg.basicLit true ("\"a: 2\nb: 7,\"".toList)]⟩]⟩ ∧
    containsSub ("\"a: 2\nb: 7,\"".toList) ignoreFmt = false :=
  ⟨by decide, by decide, by decide, by decide⟩

theorem c1_witness :
    Diff ⟨⟨"f.go", 5⟩, "8".toList, false, some (), true⟩ ("4".toList)
      ⟨true, some ⟨[⟨GoFun.selector (some "snap") "Snap", 5,
        [GoArg.otherExpr, GoArg.basicLit true ("\"8\"".toList)]⟩]⟩,
        true, true, true⟩
      = DiffOutcome.updated ⟨[⟨GoFun.selector (some "snap") "Snap", 5,
        [GoArg.otherExpr, GoArg.basicLit true ("\"4\"".toList)]⟩]⟩ := by
  have h := c1_amended_verbatim_write
    ⟨⟨"f.go", 5⟩, "8".toList, false, some (), true⟩ ("4".toList)
    ⟨true, some ⟨[⟨GoFun.selector (some "snap") "Snap", 5,
      [GoArg.otherExpr, GoArg.basicLit true ("\"8\"".toList)]⟩]⟩,
      true, true, true⟩
    GoArg.otherExpr ("\"8\"".toList) ()
    rfl (by decide) rfl rfl rfl rfl rfl
  rw [h]
  decide

theorem isPrefixOf_false_of_sandwich (a c : List Char) (ha : a ≠ [])
    (hainf : ¬ ignoreFmt <:+: a) :
    ignoreFmt.isPrefixOf (a ++ ignoreFmt ++ c) = false :=
  Bool.eq_false_iff.mpr (fun hx =>
    ignoreFmt_not_prefix_of_sandwich a c ha hainf (List.isPrefixOf_iff_prefix.mp hx))

theorem isSuffixOf_false_of_sandwich (a c : List Char) (hc : c ≠ [])
    (hcinf : ¬ ignoreFmt <:+: c) :
    ignoreFmt.isSuffixOf (a ++ ignoreFmt ++ c) = false :=
  Bool.eq_false_iff.mpr (fun hx =>
    ignoreFmt_not_suffix_of_sandwich a c hc hcinf (List.isSuffixOf_iff_suffix.mp hx))

/-- One-marker snapshots `a ++ marker ++ c` (marker-free nonempty `a`, `c`)
reduce, against an actual value `a ++ b ++ c`, to the single anchor search
`cut (b ++ c) c` followed by the empty/newline test on the ignored span. -/
theorem eei_one_marker_step (a b c : List Char)
    (ha : a ≠ []) (hc : c ≠ [])
    (hainf : ¬ ignoreFmt <:+: a) (hcinf : ¬ ignoreFmt <:+: c) :
    equalExcludingIgnored (a ++ b ++ c) (a ++ ignoreFmt ++ c) =
      (match cut (b ++ c) c with
       | none => some false
       | some (ignored, gotSuf2) =>
         if ignored = [] ∨ ignored.contains '\n' then some false
         else eeiLoop ((a ++ ignoreFmt ++ c).length) gotSuf2 []) := by
  have hnp := isPrefixOf_false_of_sandwich a c ha hainf
  have hns := isSuffixOf_false_of_sandwich a c hc hcinf
  have hcutsnap : cut (a ++ ignoreFmt ++ c) ignoreFmt = some (a, c) :=
    cut_marker_sandwich a c hainf
  have hcutgot : cut (a ++ b ++ c) a = some ([], b ++ c) := by
    have hp : a <+: (a ++ b ++ c) := by
      rw [List.append_assoc]; exact List.prefix_append a _
    rw [cut_of_prefix_arg _ _ hp, List.append_assoc, List.drop_left]
  have hcutc : cut c ignoreFmt = none :=
    (cut_none_iff_no_occurrence c ignoreFmt).mpr hcinf
  have hcutcc : cut c c = some ([], []) := by
    rw [cut_of_prefix_arg c c (List.prefix_refl c), List.drop_length]
  rw [equalExcludingIgnored, hnp, hns]
  simp only [Bool.or_self, Bool.false_eq_true, if_false]
  simp only [eeiLoop, hcutsnap, hcutgot, hcutc, hcutcc]
  simp [hc]

/-- C4 amended: for nonempty marker-free `a`, `b`, `c`,
`matches(a + b + c, a + MARKER + c)` is true when `b` has no line break and
the anchor `c` occurs in `b + c` only at its end (first occurrence at
position `|b|`); it is false whenever `b` contains a line break.  (The extra
first-occurrence condition is forced: `cut` anchors at the first occurrence
of `c` in the remaining actual text.) -/
theorem c4_amended (a b c : List Char)
    (ha : a ≠ []) (hb : b ≠ []) (hc : c ≠ [])
    (hafree : containsSub a ignoreFmt = false)
    (hbfree : containsSub b ignoreFmt = false)
    (hcfree : containsSub c ignoreFmt = false) :
    (b.contains '\n' = false → cut (b ++ c) c = some (b, []) →
      equalExcludingIgnored (a ++ b ++ c) (a ++ ignoreFmt ++ c) = some true) ∧
    (b.contains '\n' = true →
      equalExcludingIgnored (a ++ b ++ c) (a ++ ignoreFmt ++ c) = some false) := by
  have hainf : ¬ ignoreFmt <:+: a := not_infix_of_containsSub_false a ignoreFmt hafree
  have hcinf : ¬ ignoreFmt <:+: c := not_infix_of_containsSub_false c ignoreFmt hcfree
  have hstep := eei_one_marker_step a b c ha hc hainf hcinf
  constructor
  · intro hnl hcutbc
    rw [hstep, hcutbc]
    have hmem : '\n' ∉ b := by simpa using hnl
    simp [hb, hmem, eeiLoop_nil_snapshot]
  · intro hnl
    have hsome : (cut (b ++ c) c).isSome :=
      (cut_isSome_iff_occurs _ _).mpr (List.suffix_append b c).isInfix
    obtain ⟨⟨p, q⟩, hpq⟩ := Option.isSome_iff_exists.mp hsome
    have hdec : b ++ c = p ++ c ++ q := cut_eq_some _ _ _ _ hpq
    rw [hstep, hpq]
    by_cases hq : q = []
    · subst hq
      have hdec' : b ++ c = p ++ c := by simpa using hdec
      have hpb : p = b := (List.append_cancel_right hdec'.symm)
      subst hpb
      have hmem : '\n' ∈ p := by simpa using hnl
      simp [hmem]
    · by_cases hp0 : p = []
      · simp [hp0]
      · by_cases hpnl : p.contains '\n' = true
        · have hmem : '\n' ∈ p := by simpa using hpnl
          simp [hmem]
        · have hmem : '\n' ∉ p := by simpa using hpnl
          have hbq : (q == ([] : List Char)) = false := beq_eq_false_iff_ne.mpr hq
          simp [hp0, hmem, eeiLoop_nil_snapshot, hbq]

/-- C4 counterexample: with a = "x", b = "a", c = "a" (all nonempty,
marker-free, b without line break) the claim demands a true match, but the
anchor "a" is found at its first occurrence — right at the start of b ++ c —
so the ignored span is empty and the matcher returns false. -/
theorem c4_counterexample :
    ("x".toList ≠ ([] : List Char)) ∧ ("a".toList ≠ ([] : List Char)) ∧
    containsSub ("x".toList) ignoreFmt = false ∧
    containsSub ("a".toList) ignoreFmt = false ∧
    ("a".toList).contains '\n' = false ∧
    equalExcludingIgnored ("x".toList ++ "a".toList ++ "a".toList)
      ("x".toList ++ ignoreFmt ++ "a".toList) = some false :=
  ⟨by decide, by decide, by decide, by decide, by decide, by decide⟩

theorem c4_witness :
    equalExcludingIgnored ("1".toList ++ "2".toList ++ "4".toList)
      ("1".toList ++ ignoreFmt ++ "4".toList) = some true :=
  (c4_amended ("1".toList) ("2".toList) ("4".toList) (by decide) (by decide)
    (by decide) (by decide) (by decide) (by decide)).1 (by decide) (by decide)

/-- C5 amended: a marker used as a prefix or as a suffix of the expected text
aborts for every actual value.  Two adjacent markers (after a nonempty
marker-free anchor `x`, before a nonempty marker-free tail `y`) abort exactly
for the actual values that begin with `x`; for every other actual value the
matcher returns false before reaching the adjacency, and it never returns
true. -/
theorem c5_amended :
    (∀ (got z : List Char),
        equalExcludingIgnored got (ignoreFmt ++ z) = none) ∧
    (∀ (got z : List Char),
        equalExcludingIgnored got (z ++ ignoreFmt) = none) ∧
    (∀ (got x y : List Char), x ≠ [] → y ≠ [] →
        containsSub x ignoreFmt = false → containsSub y ignoreFmt = false →
        equalExcludingIgnored got (x ++ ignoreFmt ++ ignoreFmt ++ y) =
          if x.isPrefixOf got then none else some false) := by
  refine ⟨?_, ?_, ?_⟩
  · intro got z
    have hp : ignoreFmt.isPrefixOf (ignoreFmt ++ z) = true :=
      List.isPrefixOf_iff_prefix.mpr (List.prefix_append _ _)
    simp [equalExcludingIgnored, hp]
  · intro got z
    have hs : ignoreFmt.isSuffixOf (z ++ ignoreFmt) = true :=
      List.isSuffixOf_iff_suffix.mpr (List.suffix_append _ _)
    simp [equalExcludingIgnored, hs]
  · intro got x y hx hy hxfree hyfree
    have hxinf : ¬ ignoreFmt <:+: x :=
      not_infix_of_containsSub_false x ignoreFmt hxfree
    have hyinf : ¬ ignoreFmt <:+: y :=
      not_infix_of_containsSub_false y ignoreFmt hyfree
    have hshape : x ++ ignoreFmt ++ ignoreFmt ++ y
        = x ++ ignoreFmt ++ (ignoreFmt ++ y) := by
      simp [List.append_assoc]
    rw [hshape]
    have hnp : ignoreFmt.isPrefixOf (x ++ ignoreFmt ++ (ignoreFmt ++ y)) = false :=
      isPrefixOf_false_of_sandwich x (ignoreFmt ++ y) hx hxinf
    have hns : ignoreFmt.isSuffixOf (x ++ ignoreFmt ++ (ignoreFmt ++ y)) = false := by
      have h0 := isSuffixOf_false_of_sandwich (x ++ ignoreFmt) y hy hyinf
      rw [show (x ++ ignoreFmt) ++ ignoreFmt ++ y
          = x ++ ignoreFmt ++ (ignoreFmt ++ y) by simp [List.append_assoc]] at h0
      exact h0
    have hcutsnap : cut (x ++ ignoreFmt ++ (ignoreFmt ++ y)) ignoreFmt
        = some (x, ignoreFmt ++ y) := cut_marker_sandwich x (ignoreFmt ++ y) hxinf
    have hcutmy : cut (ignoreFmt ++ y) ignoreFmt = some ([], y) := by
      rw [cut_of_prefix_arg _ _ (List.prefix_append _ _), List.drop_left]
    rw [equalExcludingIgnored, hnp, hns]
    simp only [Bool.or_self, Bool.false_eq_true, if_false]
    cases hcg : cut got x with
    | none =>
      have hpf : x.isPrefixOf got = false := by
        refine Bool.eq_false_iff.mpr (fun hpp => ?_)
        have hcp := cut_of_prefix_arg got x (List.isPrefixOf_iff_prefix.mp hpp)
        rw [hcg] at hcp
        simp at hcp
      have hninf : ¬ x <:+: got := (cut_none_iff_no_occurrence got x).mp hcg
      have hne : got ≠ (x ++ ignoreFmt ++ (ignoreFmt ++ y)) := by
        intro he
        apply hninf
        rw [he, List.append_assoc]
        exact (List.prefix_append x _).isInfix
      have hbq : (got == (x ++ ignoreFmt ++ (ignoreFmt ++ y))) = false :=
        beq_eq_false_iff_ne.mpr hne
      simp only [eeiLoop, hcutsnap, hcg, hbq, hpf]
      simp
    | some pr =>
      obtain ⟨gotPre, gotSuf⟩ := pr
      by_cases hgp : gotPre = []
      · subst hgp
        have hd := cut_eq_some _ _ _ _ hcg
        simp only [List.nil_append] at hd
        have hxp : x.isPrefixOf got = true :=
          List.isPrefixOf_iff_prefix.mpr ⟨gotSuf, hd.symm⟩
        simp only [eeiLoop, hcutsnap, hcg, hcutmy]
        simp [hxp]
      · have hxp : x.isPrefixOf got = false := by
          refine Bool.eq_false_iff.mpr (fun hpp => ?_)
          have hcp := cut_of_prefix_arg got x (List.isPrefixOf_iff_prefix.mp hpp)
          rw [hcg] at hcp
          simp at hcp
          exact hgp hcp.1
        simp only [eeiLoop, hcutsnap, hcg]
        simp [hgp, hxp]

/-- C5 counterexample: the expected text "a<snap:ignore><snap:ignore>b" has
two adjacent markers with no anchor between them, yet for the actual value
"q" the matcher returns the boolean false instead of aborting: the anchor
"a" never matches, so the adjacency panic is never reached. -/
theorem c5_counterexample :
    equalExcludingIgnored ("q".toList)
      ("a".toList ++ ignoreFmt ++ ignoreFmt ++ "b".toList) = some false := by
  decide

theorem c5_witness :
    equalExcludingIgnored ("a7".toList)
      ("a".toList ++ ignoreFmt ++ ignoreFmt ++ "b".toList) = none := by
  have h := c5_amended.2.2 ("a7".toList) ("a".toList) ("b".toList)
    (by decide) (by decide) (by decide) (by decide)
  rw [h]
  decide
